import Mathlib

set_option maxRecDepth 1000000
set_option maxHeartbeats 2000000

/-!
Verification development for the puppy-photo sync scripts of the
bon-idee-bouviers repository.  The central artifact embedded here is the
manifest-based sync script (the file defining `readManifest`, `daysBetweenIso`,
`listFilesInFolder`, `safeFilename`, `syncBreed` and `main`), together with
`downloadDriveImageToRepo` from the availability exporter.  JavaScript strings
are modelled as Lean `String`, JS objects holding string keys as association
lists, epoch-millisecond values of `Date.prototype.getTime` as `Int`, and the
local image store as a partial map from paths to byte lists.  External
collaborators (the Drive listing and download API, `Date` parsing, `JSON.parse`)
enter as explicit function parameters; the sha1 hex digest of the Node crypto
library is implemented concretely below.
-/

/-! ### JavaScript primitive helpers -/

/-- JS truthiness test for an optional string: `undefined` and the empty string
are falsy (models `!x` and `x || y` on string-valued fields). -/
def jsFalsyOpt (v : Option String) : Bool :=
  match v with
  | none => true
  | some s => s = ""

/-- Models the JS expression `a || d` where `a` is an optional string and `d`
a default: falsy (`undefined` or `""`) falls through to the default. -/
def jsOr (a : Option String) (d : String) : String :=
  match a with
  | none => d
  | some s => if s = "" then d else s

/-- Models `a || d` where both sides are plain strings. -/
def jsOrS (a d : String) : String :=
  if a = "" then d else a

/-- The JS `\s` whitespace class (the code points matched by `/\s/` in
ECMAScript regular expressions). -/
def isJsWs (c : Char) : Bool :=
  let n := c.toNat
  n = 32 || n = 9 || n = 10 || n = 13 || n = 11 || n = 12 ||
  n = 0xa0 || n = 0xfeff || n = 0x1680 ||
  (0x2000 ≤ n && n ≤ 0x200a) ||
  n = 0x2028 || n = 0x2029 || n = 0x202f || n = 0x205f || n = 0x3000

/-- Models `String.prototype.trim`: drop JS whitespace from both ends. -/
def jsTrimChars (s : List Char) : List Char :=
  ((s.dropWhile isJsWs).reverse.dropWhile isJsWs).reverse

/-- Helper for `replace(/\s+/g, "_")`: each maximal run of JS whitespace
becomes a single underscore.  The boolean tracks whether the previous
character was inside a whitespace run. -/
def collapseWsAux : List Char → Bool → List Char
  | [], _ => []
  | c :: cs, inRun =>
    if isJsWs c then
      if inRun then collapseWsAux cs true else '_' :: collapseWsAux cs true
    else
      c :: collapseWsAux cs false

/-- Models `replace(/\s+/g, "_")`. -/
def collapseWs (s : List Char) : List Char :=
  collapseWsAux s false

/-- The allow-list `[a-zA-Z0-9._-]` of `safeFilename`. -/
def isAllowedChar (c : Char) : Bool :=
  let n := c.toNat
  (97 ≤ n && n ≤ 122) || (65 ≤ n && n ≤ 90) || (48 ≤ n && n ≤ 57) ||
  n = 46 || n = 95 || n = 45

/-- Association-list lookup, modelling property access `obj[k]` on a JS
object used as a string-keyed map (`undefined` becomes `none`). -/
def lookupA {α : Type} : List (String × α) → String → Option α
  | [], _ => none
  | (k', v') :: t, k => if k' = k then some v' else lookupA t k

/-- Association-list update, modelling the assignment `obj[k] = v`: an
existing key keeps its position, a new key is appended at the end (JS
property enumeration order). -/
def setA {α : Type} : List (String × α) → String → α → List (String × α)
  | [], k, v => [(k, v)]
  | (k', v') :: t, k, v =>
    if k' = k then (k, v) :: t else (k', v') :: setA t k v

/-- UTF-8 encoding of one character (the byte sequence Node uses when hashing
or writing a JS string). -/
def utf8Bytes (c : Char) : List Nat :=
  let n := c.toNat
  if n < 0x80 then [n]
  else if n < 0x800 then
    [0xc0 ||| (n >>> 6), 0x80 ||| (n &&& 0x3f)]
  else if n < 0x10000 then
    [0xe0 ||| (n >>> 12), 0x80 ||| ((n >>> 6) &&& 0x3f), 0x80 ||| (n &&& 0x3f)]
  else
    [0xf0 ||| (n >>> 18), 0x80 ||| ((n >>> 12) &&& 0x3f),
     0x80 ||| ((n >>> 6) &&& 0x3f), 0x80 ||| (n &&& 0x3f)]

/-- UTF-8 bytes of a string. -/
def strBytes (s : String) : List Nat :=
  s.data.foldr (fun c acc => utf8Bytes c ++ acc) []

/-- Take the first `n` characters of a string; models `slice(0, n)` on the
ASCII hex digests it is applied to. -/
def strTake (s : String) (n : Nat) : String :=
  String.mk (s.data.take n)

/-! ### SHA-1 (the digest `crypto.createHash("sha1")` computes)

Machine words are `Nat` values reduced modulo `2 ^ 32`. -/

/-- `2 ^ 32`. -/
def m32 : Nat := 4294967296

/-- Rotate a 32-bit word left by `n`. -/
def rotl (n x : Nat) : Nat :=
  ((x <<< n) ||| (x >>> (32 - n))) % m32

/-- SHA-1 message padding: append `0x80`, zero bytes up to 56 mod 64, then the
bit length as 8 big-endian bytes. -/
def sha1pad (msg : List Nat) : List Nat :=
  let len := msg.length
  let z := (119 - (len % 64)) % 64
  msg ++ [0x80] ++ List.replicate z 0 ++
    (List.range 8).map (fun i => (8 * len >>> (8 * (7 - i))) % 256)

/-- Group bytes into big-endian 32-bit words. -/
def bytesToWords : List Nat → List Nat
  | b0 :: b1 :: b2 :: b3 :: rest =>
    ((b0 <<< 24) ||| (b1 <<< 16) ||| (b2 <<< 8) ||| b3) :: bytesToWords rest
  | _ => []

/-- Extend 16 chunk words to the 80-word schedule. -/
def sha1extend (ws : List Nat) : List Nat :=
  (List.range 64).foldl
    (fun a i =>
      a ++ [rotl 1 ((a.getD (i + 13) 0) ^^^ (a.getD (i + 8) 0) ^^^
                    (a.getD (i + 2) 0) ^^^ (a.getD i 0))])
    ws

/-- The round function and constant for round `t`. -/
def sha1fk (t b c d : Nat) : Nat × Nat :=
  if t < 20 then (((b &&& c) ||| ((b ^^^ 0xffffffff) &&& d)) % m32, 0x5a827999)
  else if t < 40 then ((b ^^^ c ^^^ d) % m32, 0x6ed9eba1)
  else if t < 60 then (((b &&& c) ||| (b &&& d) ||| (c &&& d)) % m32, 0x8f1bbcdc)
  else ((b ^^^ c ^^^ d) % m32, 0xca62c1d6)

/-- The five-word SHA-1 state. -/
structure Sha1State where
  a : Nat
  b : Nat
  c : Nat
  d : Nat
  e : Nat
deriving DecidableEq

/-- One compression round. -/
def sha1step (st : Sha1State) (tw : Nat × Nat) : Sha1State :=
  let fk := sha1fk tw.1 st.b st.c st.d
  let temp := (rotl 5 st.a + fk.1 + st.e + fk.2 + tw.2) % m32
  ⟨temp, st.a, rotl 30 st.b, st.c, st.d⟩

/-- Compress one 16-word chunk into the running state. -/
def sha1compress (h : Sha1State) (chunk : List Nat) : Sha1State :=
  let ws := sha1extend chunk
  let f := (((List.range 80).zip ws).foldl sha1step h)
  ⟨(h.a + f.a) % m32, (h.b + f.b) % m32, (h.c + f.c) % m32,
   (h.d + f.d) % m32, (h.e + f.e) % m32⟩

/-- Fold the compression over all 16-word chunks (matched 16 at a time). -/
def sha1chunks (h : Sha1State) : List Nat → Sha1State
  | w0 :: w1 :: w2 :: w3 :: w4 :: w5 :: w6 :: w7 ::
    w8 :: w9 :: w10 :: w11 :: w12 :: w13 :: w14 :: w15 :: rest =>
    sha1chunks (sha1compress h
      [w0, w1, w2, w3, w4, w5, w6, w7, w8, w9, w10, w11, w12, w13, w14, w15]) rest
  | _ => h

/-- The SHA-1 initial state. -/
def sha1init : Sha1State :=
  ⟨0x67452301, 0xefcdab89, 0x98badcfe, 0x10325476, 0xc3d2e1f0⟩

/-- One lowercase hex digit. -/
def hexDigit (n : Nat) : Char :=
  if n < 10 then Char.ofNat (48 + n) else Char.ofNat (87 + n)

/-- Eight lowercase hex digits of a 32-bit word, most significant first. -/
def wordHex (w : Nat) : List Char :=
  (List.range 8).map (fun i => hexDigit ((w >>> (4 * (7 - i))) % 16))

/-- `sha1(s)` from the source: the lowercase hex digest of the UTF-8 bytes of
`s`, as produced by `crypto.createHash("sha1").update(s).digest("hex")`. -/
def sha1hex (s : String) : String :=
  let f := sha1chunks sha1init (bytesToWords (sha1pad (strBytes s)))
  String.mk (wordHex f.a ++ wordHex f.b ++ wordHex f.c ++ wordHex f.d ++ wordHex f.e)

/-! ### Stable namer (`safeFilename` and the `stableName` expression) -/

/-- The sanitizing pipeline of `safeFilename` before its fallback:
`name.replace(/\s+/g, "_").replace(/[^a-zA-Z0-9._-]/g, "").trim()`. -/
def sanitizedBase (name : String) : String :=
  String.mk (jsTrimChars ((collapseWs name.data).filter isAllowedChar))

/-- `safeFilename(name)` from the source.  The fallback template literal
interpolates `Date.now()`, modelled by the explicit millisecond clock value
`nowMs`. -/
def safeFilename (nowMs : Nat) (name : String) : String :=
  let base := sanitizedBase name
  if base = "" then "photo_" ++ toString nowMs ++ ".jpg" else base

/-- The characters of a path after its last slash (posix basename). -/
def basenameChars (p : List Char) : List Char :=
  (p.reverse.takeWhile (fun c => !(c = '/'))).reverse

/-- `path.parse(p).name`: the basename with the final extension removed; a dot
at position 0 of the basename does not start an extension. -/
def parseNameOf (p : String) : String :=
  let b := basenameChars p.data
  let pre := b.reverse.dropWhile (fun c => !(c = '.'))
  match pre with
  | [] => String.mk b
  | _ :: rest => if rest = [] then String.mk b else String.mk rest.reverse

/-- ASCII lowercasing of one character (the effect of `toLowerCase` on the
ASCII range). -/
def charLower (c : Char) : Char :=
  if 65 ≤ c.toNat && c.toNat ≤ 90 then Char.ofNat (c.toNat + 32) else c

/-- `toLowerCase` on the character list of a string (ASCII range). -/
def strLower (s : String) : String :=
  String.mk (s.data.map charLower)

/-- Suffix test on the character lists of two strings. -/
def strSuffix (suf s : String) : Bool :=
  List.isSuffixOf suf.data s.data

/-- Test whether `s` starts with `pre`, on character lists (models
`String.prototype.startsWith`). -/
def strStartsWith (s pre : String) : Bool :=
  List.isPrefixOf pre.data s.data

/-- The extension chosen in `syncBreed`:
`(f.name || "").match(/\.(jpe?g|png|webp)$/i)` lowercased, defaulting to
`".jpg"`. -/
def extOf (name : String) : String :=
  let l := strLower name
  if strSuffix ".jpeg" l then ".jpeg"
  else if strSuffix ".jpg" l then ".jpg"
  else if strSuffix ".png" l then ".png"
  else if strSuffix ".webp" l then ".webp"
  else ".jpg"

/-- Whether `/\.(jpe?g|png|webp)$/i.test(name)` succeeds. -/
def hasImageExt (name : String) : Bool :=
  strSuffix ".jpg" (strLower name) || strSuffix ".jpeg" (strLower name) ||
  strSuffix ".png" (strLower name) || strSuffix ".webp" (strLower name)

/-- The `stableName` expression of `syncBreed`:
`safeFilename(path.parse(f.name || "photo").name) + "_" + sha1(f.id).slice(0, 10) + ext`. -/
def stableNameOf (nowMs : Nat) (driveName : Option String) (fileId : String) : String :=
  safeFilename nowMs (parseNameOf (jsOr driveName "photo")) ++ "_" ++
    strTake (sha1hex fileId) 10 ++ extOf (jsOr driveName "")

/-! ### Identity manifest (`readManifest` and the first-seen map) -/

/-- Per-collection map: Drive file id to first-seen ISO timestamp string. -/
abbrev BreedMap := List (String × String)

/-- The whole `manifest.firstSeen` object: collection key to per-collection map. -/
abbrev FirstSeen := List (String × BreedMap)

/-- The manifest object `{ version, firstSeen }`. -/
structure ManifestStore where
  version : Int
  firstSeen : FirstSeen
deriving DecidableEq

/-- The empty manifest `{ version: 1, firstSeen: {} }`. -/
def emptyManifest : ManifestStore := ⟨1, []⟩

/-- The state of the manifest file when `readManifest` runs. -/
inductive FileReadOutcome where
  | absent
  | readError (msg : String)
  | content (s : String)

/-- `readManifest()` from the source: absent file, read failure, and parse
failure all fall back to the empty manifest (the surrounding `try`/`catch`).
`parseManifest` models the external `JSON.parse` applied to the file text,
returning `none` when it throws. -/
def readManifest (parseManifest : String → Option ManifestStore) :
    FileReadOutcome → ManifestStore
  | .absent => emptyManifest
  | .readError _ => emptyManifest
  | .content s =>
    match parseManifest s with
    | none => emptyManifest
    | some m => m

/-- The per-collection manifest touch, exactly the loop body lines
`if (!manifest.firstSeen[breedKey][f.id]) manifest.firstSeen[breedKey][f.id] = runNowIso;`
followed by the read `manifest.firstSeen[breedKey][f.id]`.  Returns the value
read together with the updated map. -/
def touchBM (bm : BreedMap) (id nowIso : String) : String × BreedMap :=
  let bm' := if jsFalsyOpt (lookupA bm id) then setA bm id nowIso else bm
  ((lookupA bm' id).getD "", bm')

/-- The two-level touch on the whole first-seen map, composing
`manifest.firstSeen[breedKey] = manifest.firstSeen[breedKey] || {}` with
`touchBM`. -/
def touch (fs : FirstSeen) (breedKey id nowIso : String) : String × FirstSeen :=
  let bm := (lookupA fs breedKey).getD []
  let r := touchBM bm id nowIso
  (r.1, setA fs breedKey r.2)

/-- Lookup of a first-seen value through both levels (absent collection behaves
as an empty object). -/
def lookup2 (fs : FirstSeen) (breedKey id : String) : Option String :=
  lookupA ((lookupA fs breedKey).getD []) id

/-! ### Retention classifier (`daysBetweenIso` and the archive test) -/

/-- Milliseconds per day, the divisor `1000 * 60 * 60 * 24`. -/
def msPerDay : Int := 86400000

/-- `daysBetweenIso` on epoch-millisecond values:
`Math.floor((newer - older) / 86400000)` (floor division). -/
def daysBetweenMs (olderMs newerMs : Int) : Int :=
  Int.fdiv (newerMs - olderMs) msPerDay

/-- `daysBetweenIso(olderIso, newerIso)`, with `getTime` modelling
`new Date(s).getTime()` for valid ISO strings. -/
def daysBetweenIso (getTime : String → Int) (olderIso newerIso : String) : Int :=
  daysBetweenMs (getTime olderIso) (getTime newerIso)

/-- `DAYS_TO_KEEP_CURRENT = 90`. -/
def DAYS_TO_KEEP_CURRENT : Int := 90

/-- The retention classifier assembled from the `syncBreed` lines
`const ageDays = daysBetweenIso(firstSeenIso, runNowIso);`
`const isArchive = ageDays > DAYS_TO_KEEP_CURRENT;`
with the threshold generalized to a parameter (the source instantiates it with
`DAYS_TO_KEEP_CURRENT`). -/
def classify (firstMs nowMs thresholdDays : Int) : Int × Bool :=
  let age := daysBetweenMs firstMs nowMs
  (age, decide (thresholdDays < age))

/-! ### Remote asset lister (`listFilesInFolder`) -/

/-- One record of `res.data.files`: the fields requested from the Drive API.
Fields a response may omit are optional. -/
structure DriveFile where
  id : String
  name : Option String
  mimeType : Option String
  createdTime : Option String
  modifiedTime : Option String
deriving DecidableEq

/-- The per-file keep test of `listFilesInFolder`: `if (!f.mimeType) continue;`
then `f.mimeType.startsWith("image/") || /\.(jpe?g|png|webp)$/i.test(f.name || "")`. -/
def keepFile (f : DriveFile) : Bool :=
  !(jsFalsyOpt f.mimeType) &&
    ((strStartsWith (f.mimeType.getD "") "image/") || hasImageExt (jsOr f.name ""))

/-- The sort key `new Date(f.modifiedTime || f.createdTime)` in epoch ms. -/
def sortKeyOf (getTime : String → Int) (f : DriveFile) : Int :=
  getTime (jsOr f.modifiedTime (jsOr f.createdTime ""))

/-- Stable insertion for the descending sort: an element moves before another
only when its key is strictly larger, so equal keys keep their listing order
(the stability ECMAScript guarantees for `Array.prototype.sort`). -/
def insertByKeyDesc (key : DriveFile → Int) (f : DriveFile) :
    List DriveFile → List DriveFile
  | [] => [f]
  | g :: t => if key g ≤ key f then f :: g :: t else g :: insertByKeyDesc key f t

/-- The stable descending sort by `sortKeyOf`, modelling
`files.sort((a, b) => new Date(...) - new Date(...))`. -/
def sortByKeyDesc (key : DriveFile → Int) (l : List DriveFile) : List DriveFile :=
  l.foldr (insertByKeyDesc key) []

/-- `listFilesInFolder`: the pages returned by the Drive listing (one list per
`drive.files.list` response) are filtered by `keepFile` and sorted newest
first by `modifiedTime` with `createdTime` fallback. -/
def listFilesInFolder (getTime : String → Int) (pages : List (List DriveFile)) :
    List DriveFile :=
  sortByKeyDesc (sortKeyOf getTime) (pages.flatten.filter keepFile)

/-! ### Local file store and idempotent fetcher -/

/-- The local image store: a partial map from destination paths to byte lists. -/
def FS : Type := String → Option (List Nat)

/-- The empty store. -/
def emptyFS : FS := fun _ => none

/-- `fs.writeFileSync(p, bytes)`. -/
def updateFS (fsys : FS) (p : String) (bs : List Nat) : FS :=
  fun q => if q = p then some bs else fsys q

/-- The materialization step of `syncBreed` (its lines
`if (!fs.existsSync(destPath)) { await downloadFile(drive, f.id, destPath); }`):
skip when the destination exists, otherwise download and write.  `download`
models `drive.files.get({ fileId, alt: "media" })`, failing with the thrown
message.  The boolean reports whether a content fetch was performed. -/
def ensureMaterialized (download : String → Except String (List Nat))
    (fsys : FS) (fileId destPath : String) : Except String (FS × Bool) :=
  if (fsys destPath).isSome then .ok (fsys, false)
  else (download fileId).map (fun bs => (updateFS fsys destPath bs, true))

/-- The metadata record `drive.files.get({ fileId, fields: "id,name,mimeType" })`
returns in `downloadDriveImageToRepo`. -/
structure DriveMeta where
  name : Option String
  mimeType : Option String

/-- `extFromName` from the availability exporter: the lowercased
`path.extname` of the trimmed name without its dot, or the empty string. -/
def extFromName (name : String) : String :=
  let b := basenameChars (jsTrimChars name.data)
  let pre := b.reverse.dropWhile (fun c => !(c = '.'))
  match pre with
  | [] => ""
  | _ :: rest =>
    if rest = [] then ""
    else String.mk (('.' :: (b.reverse.takeWhile (fun c => !(c = '.'))).reverse).drop 1 |>.map charLower)

/-- `extFromMime` from the availability exporter. -/
def extFromMime (mimeType : String) : String :=
  let mt := strLower mimeType
  if mt = "image/jpeg" then "jpg"
  else if mt = "image/png" then "png"
  else if mt = "image/webp" then "webp"
  else if mt = "image/gif" then "gif"
  else if mt = "image/heic" || mt = "image/heif" then "heic"
  else ""

/-- The result record of `downloadDriveImageToRepo` plus the resulting store
and whether a content download happened. -/
structure DlResult where
  fsys : FS
  outPath : String
  outName : String
  ext : String
  fetched : Bool

/-- The extension chain of `downloadDriveImageToRepo`:
`extFromName(name) || extFromMime(mimeType) || "jpg"` with the extra
`if (!ext) ext = "jpg"` guard. -/
def driveExtOf (meta : DriveMeta) (fileId : String) : String :=
  let name := jsOr meta.name fileId
  let mimeType := jsOr meta.mimeType ""
  let e := jsOrS (extFromName name) (jsOrS (extFromMime mimeType) "jpg")
  if e = "" then "jpg" else e

/-- The output filename `` `${fileId}.${ext}` `` of `downloadDriveImageToRepo`. -/
def driveOutName (meta : DriveMeta) (fileId : String) : String :=
  fileId ++ "." ++ driveExtOf meta fileId

/-- `downloadDriveImageToRepo(drive, fileId, destDir)` from the availability
exporter: compute the destination from the file metadata, skip the download
when a non-empty file is already present
(`fs.existsSync(outPath) && fs.statSync(outPath).size > 0`), otherwise stream
the content to the destination.  `getMeta` models the metadata request and
`download` the content request. -/
def downloadDriveImageToRepo (getMeta : String → DriveMeta)
    (download : String → Except String (List Nat))
    (fsys : FS) (fileId destDir : String) : Except String DlResult :=
  let meta := getMeta fileId
  let outName := driveOutName meta fileId
  let outPath := destDir ++ "/" ++ outName
  match fsys outPath with
  | some bs =>
    if bs.length > 0 then .ok ⟨fsys, outPath, outName, driveExtOf meta fileId, false⟩
    else (download fileId).map
      (fun b => ⟨updateFS fsys outPath b, outPath, outName, driveExtOf meta fileId, true⟩)
  | none => (download fileId).map
      (fun b => ⟨updateFS fsys outPath b, outPath, outName, driveExtOf meta fileId, true⟩)

/-! ### Sync orchestrator (`syncBreed` and `main`) -/

/-- The external collaborators and ambient clock of a run. -/
structure Env where
  /-- `new Date(s).getTime()` on the ISO strings of the run. -/
  getTime : String → Int
  /-- The Drive content download by file id; `.error` models a thrown request. -/
  download : String → Except String (List Nat)
  /-- `Date.now()` as observed by the `safeFilename` fallback. -/
  datNowMs : Nat

/-- One element of the `current` array pushed by `syncBreed`. -/
structure CurrentItem where
  filename : String
  url : String
  driveName : Option String
  firstSeen : String
  ageDays : Int
deriving DecidableEq

/-- The summary object `out` written to `data/puppy-photos-<breed>.json`. -/
structure BreedSummary where
  breed : String
  generatedAt : String
  keepDays : Int
  current : List CurrentItem
  archiveCount : Nat
deriving DecidableEq

instance exceptDecEq {ε α : Type} [DecidableEq ε] [DecidableEq α] :
    DecidableEq (Except ε α) := fun x y =>
  match x, y with
  | .error a, .error b =>
    if h : a = b then isTrue (congrArg Except.error h)
    else isFalse (fun hc => h (Except.error.inj hc))
  | .ok a, .ok b =>
    if h : a = b then isTrue (congrArg Except.ok h)
    else isFalse (fun hc => h (Except.ok.inj hc))
  | .error _, .ok _ => isFalse (fun hc => Except.noConfusion hc)
  | .ok _, .error _ => isFalse (fun hc => Except.noConfusion hc)

/-- Replace backslashes by slashes: `destPath.replace(/\\/g, "/")`. -/
def slashify (s : String) : String :=
  String.mk (s.data.map (fun c => if c = '\\' then '/' else c))

/-- The per-breed directory for a bucket:
`path.join("images", "puppies", breedKey, "current" | "archive")`. -/
def destDirOf (breedKey : String) (isArchive : Bool) : String :=
  "images/puppies/" ++ breedKey ++ (if isArchive then "/archive" else "/current")

/-- The first-seen value the loop body reads for `f` after its touch. -/
def firstSeenOf (bm : BreedMap) (f : DriveFile) (runNowIso : String) : String :=
  (touchBM bm f.id runNowIso).1

/-- Age and archive flag of `f`, through `classify` at the fixed threshold. -/
def ageArchOf (env : Env) (bm : BreedMap) (f : DriveFile) (runNowIso : String) :
    Int × Bool :=
  classify (env.getTime (firstSeenOf bm f runNowIso)) (env.getTime runNowIso)
    DAYS_TO_KEEP_CURRENT

/-- The destination path `path.join(destDir, stableName)` of `f`. -/
def destPathOf (datNowMs : Nat) (breedKey : String) (isArchive : Bool)
    (f : DriveFile) : String :=
  destDirOf breedKey isArchive ++ "/" ++ stableNameOf datNowMs f.name f.id

/-- The object pushed onto `current` for a non-archived `f`. -/
def mkItem (env : Env) (breedKey : String) (bm : BreedMap) (f : DriveFile)
    (runNowIso : String) : CurrentItem :=
  ⟨stableNameOf env.datNowMs f.name f.id,
   "./" ++ slashify (destPathOf env.datNowMs breedKey false f),
   f.name, firstSeenOf bm f runNowIso, (ageArchOf env bm f runNowIso).1⟩

/-- The `for (const f of files)` loop of `syncBreed`.  The breed submap, the
local store, the `current` array and `archiveCount` are threaded; a download
throw stops the loop, keeping the mutations made so far. -/
def processFiles (env : Env) (breedKey runNowIso : String) :
    List DriveFile → BreedMap → FS → List CurrentItem → Nat →
    BreedMap × FS × Except String (List CurrentItem × Nat)
  | [], bm, fsys, cur, ac => (bm, fsys, .ok (cur, ac))
  | f :: rest, bm, fsys, cur, ac =>
    match ensureMaterialized env.download fsys f.id
        (destPathOf env.datNowMs breedKey (ageArchOf env bm f runNowIso).2 f) with
    | .error e => ((touchBM bm f.id runNowIso).2, fsys, .error e)
    | .ok (fsys1, _) =>
      if (ageArchOf env bm f runNowIso).2 then
        processFiles env breedKey runNowIso rest (touchBM bm f.id runNowIso).2 fsys1
          cur (ac + 1)
      else
        processFiles env breedKey runNowIso rest (touchBM bm f.id runNowIso).2 fsys1
          (cur ++ [mkItem env breedKey bm f runNowIso]) ac

/-- The observable state `syncBreed` leaves behind: the local store, the
first-seen map as mutated in memory, and either the summary written to
`data/puppy-photos-<breed>.json` or the propagated throw (in which case no
summary is written for the collection). -/
structure SyncOutcome where
  fsys : FS
  firstSeen : FirstSeen
  result : Except String BreedSummary

/-- `syncBreed({ drive, breedKey, folderId, manifest, runNowIso })`: list,
then the per-file loop, then the summary object.  `pages` stands for the
successive Drive listing responses for the folder. -/
def syncBreed (env : Env) (breedKey : String) (pages : List (List DriveFile))
    (firstSeen : FirstSeen) (runNowIso : String) (fsys : FS) : SyncOutcome :=
  match processFiles env breedKey runNowIso (listFilesInFolder env.getTime pages)
      ((lookupA firstSeen breedKey).getD []) fsys [] 0 with
  | (bm', fsys', .error e) => ⟨fsys', setA firstSeen breedKey bm', .error e⟩
  | (bm', fsys', .ok (cur, ac)) =>
    ⟨fsys', setA firstSeen breedKey bm',
     .ok ⟨breedKey, runNowIso, DAYS_TO_KEEP_CURRENT, cur, ac⟩⟩

/-- `main()` after credentials and folder ids are read: sync `bouviers`, then
`lowchen`, then persist the manifest with `writeManifest`.  A throw in either
collection aborts the run before `writeManifest`, so the persisted store is
`none` in that case. -/
def runMain (env : Env) (pagesBouviers pagesLowchen : List (List DriveFile))
    (manifest : ManifestStore) (runNowIso : String) (fsys : FS) :
    FS × FirstSeen × Option ManifestStore :=
  let o1 := syncBreed env "bouviers" pagesBouviers manifest.firstSeen runNowIso fsys
  match o1.result with
  | .error _ => (o1.fsys, o1.firstSeen, none)
  | .ok _ =>
    let o2 := syncBreed env "lowchen" pagesLowchen o1.firstSeen runNowIso o1.fsys
    match o2.result with
    | .error _ => (o2.fsys, o2.firstSeen, none)
    | .ok _ => (o2.fsys, o2.firstSeen, some ⟨manifest.version, o2.firstSeen⟩)

/-! ### Derived descriptions of the loop output -/

/-- The current-bucket item a file contributes, read off the final per-breed
map: because first-seen values are write-once during a run, the value the loop
used for `f` is the value the final map holds for `f.id`. -/
def itemOfFinal (env : Env) (breedKey runNowIso : String) (bmF : BreedMap)
    (f : DriveFile) : Option CurrentItem :=
  if (classify (env.getTime ((lookupA bmF f.id).getD "")) (env.getTime runNowIso)
      DAYS_TO_KEEP_CURRENT).2 then none
  else some ⟨stableNameOf env.datNowMs f.name f.id,
    "./" ++ slashify (destPathOf env.datNowMs breedKey false f),
    f.name, (lookupA bmF f.id).getD "",
    (classify (env.getTime ((lookupA bmF f.id).getD "")) (env.getTime runNowIso)
      DAYS_TO_KEEP_CURRENT).1⟩

/-- Pairwise chain test on consecutive current items. -/
def chainB (r : CurrentItem → CurrentItem → Bool) : List CurrentItem → Bool
  | [] => true
  | [_] => true
  | a :: b :: t => r a b && chainB r (b :: t)

/-- Stated from the words of the specification, for comparison with the code:
the current items are ordered by nondecreasing first-seen time (the primary
component of the documented sort key first-seen time, then asset id). -/
def sortedByFirstSeen (getTime : String → Int) (l : List CurrentItem) : Bool :=
  chainB (fun x y => decide (getTime x.firstSeen ≤ getTime y.firstSeen)) l

/-- Stated from the words of the specification, descending variant: the
current items are ordered by nonincreasing first-seen time. -/
def sortedByFirstSeenRev (getTime : String → Int) (l : List CurrentItem) : Bool :=
  chainB (fun x y => decide (getTime y.firstSeen ≤ getTime x.firstSeen)) l

/-! ### Concrete fixtures used by witnesses and counterexamples -/

/-- A clock for the concrete runs: epoch ms of the ISO timestamps involved. -/
def gtFix : String → Int := fun s =>
  if s = "2026-01-01T00:00:00.000Z" then 0
  else if s = "2026-01-02T00:00:00.000Z" then 86400000
  else if s = "2026-01-03T00:00:00.000Z" then 172800000
  else if s = "2026-01-04T00:00:00.000Z" then 259200000
  else if s = "2026-01-05T00:00:00.000Z" then 345600000
  else if s = "2026-01-10T00:00:00.000Z" then 777600000
  else if s = "2026-04-10T00:00:00.000Z" then 8553600000
  else 0

/-- Environment with an always-succeeding download. -/
def envFix : Env := ⟨gtFix, fun _ => .ok [1], 7⟩

/-- Drive file `a`, modified Jan 4. -/
def faX : DriveFile := ⟨"a", some "a.jpg", some "image/jpeg", none,
  some "2026-01-04T00:00:00.000Z"⟩

/-- Drive file `b`, modified Jan 3. -/
def fbX : DriveFile := ⟨"b", some "b.jpg", some "image/jpeg", none,
  some "2026-01-03T00:00:00.000Z"⟩

/-- Drive file `c`, modified Jan 2. -/
def fcX : DriveFile := ⟨"c", some "c.jpg", some "image/jpeg", none,
  some "2026-01-02T00:00:00.000Z"⟩

/-- A loaded manifest whose first-seen times disagree with the modified-time
ordering of `faX`, `fbX`, `fcX`. -/
def fsFix : FirstSeen :=
  [("bouviers", [("a", "2026-01-05T00:00:00.000Z"),
                 ("b", "2026-01-01T00:00:00.000Z"),
                 ("c", "2026-01-05T00:00:00.000Z")])]

/-- The concrete run used to examine the summary ordering. -/
def c7run : SyncOutcome :=
  syncBreed envFix "bouviers" [[fcX, faX], [fbX]] fsFix
    "2026-01-10T00:00:00.000Z" emptyFS

/-- The summary of that run. -/
def c7sum : BreedSummary := c7run.result.toOption.getD ⟨"", "", 0, [], 0⟩

/-- A run mixing buckets: file `a` was first seen Jan 1 and the run happens
Apr 10 (99 days later, archived), file `b` was first seen Jan 5 (95 days,
archived) and file `c` is new (current). -/
def c9run : SyncOutcome :=
  syncBreed envFix "bouviers" [[fcX, faX], [fbX]]
    [("bouviers", [("a", "2026-01-01T00:00:00.000Z"),
                   ("b", "2026-01-05T00:00:00.000Z")])]
    "2026-04-10T00:00:00.000Z" emptyFS

/-- The summary of that run. -/
def c9sum : BreedSummary := c9run.result.toOption.getD ⟨"", "", 0, [], 0⟩

/-- The environment whose downloads always fail. -/
def envC5 : Env := ⟨gtFix, fun _ => .error "network down", 7⟩

/-- The environment of the C5 witness run. -/
def envC5w : Env := ⟨gtFix, fun _ => .error "offline", 3⟩

/-- Download and metadata stubs for the fetcher witness. -/
def dl4 : String → Except String (List Nat) := fun _ => .ok [7, 7]

/-- Metadata stub: the remote name is `pup.png` with an image MIME type. -/
def meta4 : String → DriveMeta := fun _ => ⟨some "pup.png", some "image/png"⟩

/-- A store already holding bytes at the destination the simple variant uses. -/
def fsP4 : FS := updateFS emptyFS "images/puppies/bouviers/current/p.jpg" [1]

/-- A store already holding non-empty bytes at the destination the strict
variant computes for file id `drv1`. -/
def fsS4 : FS := updateFS emptyFS "assets/available-photos/drv1.png" [5]

/-- A loaded manifest with one old entry, for the manifest-growth witness. -/
def m10 : ManifestStore :=
  ⟨1, [("bouviers", [("old", "2026-01-01T00:00:00.000Z")])]⟩

/-- The environment of the manifest-growth witness (no files listed, so the
download stub is never consulted). -/
def env10 : Env := ⟨gtFix, fun _ => .ok [], 0⟩

/-- The manifest the witness run persists: the loaded entry is retained and an
empty map for the second collection is appended. -/
def ms10 : ManifestStore :=
  ⟨1, [("bouviers", [("old", "2026-01-01T00:00:00.000Z")]), ("lowchen", [])]⟩

/-! ### Lemmas about the association-list operations -/

theorem lookupA_setA_self {α : Type} (m : List (String × α)) (k : String) (v : α) :
    lookupA (setA m k v) k = some v := by
  induction m with
  | nil => simp [setA, lookupA]
  | cons h t ih =>
    obtain ⟨k', v'⟩ := h
    by_cases hk : k' = k
    · simp [setA, hk, lookupA]
    · simp [setA, hk, lookupA, ih]

theorem lookupA_setA_ne {α : Type} (m : List (String × α)) (k k' : String) (v : α)
    (h : k' ≠ k) : lookupA (setA m k v) k' = lookupA m k' := by
  induction m with
  | nil => simp [setA, lookupA, Ne.symm h]
  | cons hd t ih =>
    obtain ⟨k0, v0⟩ := hd
    by_cases hk : k0 = k
    · subst hk
      simp [setA, lookupA, Ne.symm h]
    · by_cases hk' : k0 = k' <;> simp [setA, hk, lookupA, hk', h, ih]

/-! ### Lemmas about the manifest touch -/

theorem touchBM_lookup_self (bm : BreedMap) (id nowIso : String) :
    lookupA (touchBM bm id nowIso).2 id = some ((touchBM bm id nowIso).1) := by
  unfold touchBM jsFalsyOpt
  cases h : lookupA bm id with
  | none => simp [h, lookupA_setA_self]
  | some v =>
    by_cases hv : v = "" <;> simp [h, hv, lookupA_setA_self]

theorem touchBM_of_absent (bm : BreedMap) (id nowIso : String)
    (h : lookupA bm id = none) :
    (touchBM bm id nowIso).1 = nowIso ∧ (touchBM bm id nowIso).2 = setA bm id nowIso := by
  simp [touchBM, jsFalsyOpt, h, lookupA_setA_self]

theorem touchBM_of_present (bm : BreedMap) (id nowIso v : String)
    (h : lookupA bm id = some v) (hv : v ≠ "") :
    (touchBM bm id nowIso).1 = v ∧ (touchBM bm id nowIso).2 = bm := by
  simp [touchBM, jsFalsyOpt, h, hv]

theorem touchBM_mono (bm : BreedMap) (id nowIso id0 v : String)
    (hbm : ∀ i, lookupA bm i ≠ some "") (h : lookupA bm id0 = some v) :
    lookupA (touchBM bm id nowIso).2 id0 = some v := by
  unfold touchBM jsFalsyOpt
  by_cases hid : id0 = id
  · subst hid
    have hv : v ≠ "" := by
      intro hv
      exact hbm id0 (hv ▸ h)
    simp [h, hv]
  · cases h' : lookupA bm id with
    | none => simp [h', lookupA_setA_ne _ _ _ _ hid, h]
    | some w =>
      by_cases hw : w = "" <;> simp [h', hw, lookupA_setA_ne _ _ _ _ hid, h]

theorem touchBM_noempty (bm : BreedMap) (id nowIso : String)
    (hnow : nowIso ≠ "") (hbm : ∀ i, lookupA bm i ≠ some "") :
    ∀ i, lookupA (touchBM bm id nowIso).2 i ≠ some "" := by
  intro i
  unfold touchBM jsFalsyOpt
  cases h : lookupA bm id with
  | none =>
    by_cases hi : i = id
    · subst hi
      simp [h, lookupA_setA_self, hnow]
    · simp [h, lookupA_setA_ne _ _ _ _ hi]
      exact hbm i
  | some v =>
    by_cases hv : v = ""
    · subst hv
      exact absurd h (hbm id)
    · simp [h, hv]
      exact hbm i

/-! ### Claim C1 -/

/-- Claim C1: on a manifest where the pair `(collectionKey, assetId)` is
absent, `touch` with `now1` inserts `now1` and returns it, and a later `touch`
with any `now2` returns `now1` and leaves the stored value equal to `now1`
(`firstSeenAt` is write-once per identity).  The hypothesis `now1 ≠ ""`
states that `now1` is an actual timestamp string (the code tests the stored
value with JS truthiness, and every ISO timestamp is a non-empty string). -/
theorem c1_touch_write_once (fs : FirstSeen) (breedKey id now1 now2 : String)
    (habs : lookup2 fs breedKey id = none) (h1 : now1 ≠ "") :
    (touch fs breedKey id now1).1 = now1 ∧
    lookup2 (touch fs breedKey id now1).2 breedKey id = some now1 ∧
    (touch (touch fs breedKey id now1).2 breedKey id now2).1 = now1 ∧
    lookup2 (touch (touch fs breedKey id now1).2 breedKey id now2).2 breedKey id
      = some now1 := by
  have hbm1 := touchBM_of_absent ((lookupA fs breedKey).getD []) id now1 habs
  have h1t : (touch fs breedKey id now1).1 = now1 := hbm1.1
  have hfs1 : (touch fs breedKey id now1).2
      = setA fs breedKey (setA ((lookupA fs breedKey).getD []) id now1) := by
    show setA fs breedKey (touchBM ((lookupA fs breedKey).getD []) id now1).2
        = setA fs breedKey (setA ((lookupA fs breedKey).getD []) id now1)
    rw [hbm1.2]
  have hl1 : lookup2 (touch fs breedKey id now1).2 breedKey id = some now1 := by
    show lookupA ((lookupA (touch fs breedKey id now1).2 breedKey).getD []) id
        = some now1
    rw [hfs1, lookupA_setA_self]
    exact lookupA_setA_self _ _ _
  have hbp := touchBM_of_present
      ((lookupA (touch fs breedKey id now1).2 breedKey).getD []) id now2 now1 hl1 h1
  have h2t : (touch (touch fs breedKey id now1).2 breedKey id now2).1 = now1 := hbp.1
  have hl2 : lookup2 (touch (touch fs breedKey id now1).2 breedKey id now2).2
      breedKey id = some now1 := by
    show lookupA ((lookupA (setA (touch fs breedKey id now1).2 breedKey
        (touchBM ((lookupA (touch fs breedKey id now1).2 breedKey).getD [])
          id now2).2) breedKey).getD []) id = some now1
    rw [lookupA_setA_self]
    show lookupA (touchBM ((lookupA (touch fs breedKey id now1).2 breedKey).getD [])
        id now2).2 id = some now1
    rw [hbp.2]
    exact hl1
  exact ⟨h1t, hl1, h2t, hl2⟩

/-- Witness for C1 at a concrete empty manifest and two concrete timestamps. -/
theorem c1_touch_write_once_witness :
    (touch [] "bouviers" "fileA" "2026-01-01T00:00:00.000Z").1
      = "2026-01-01T00:00:00.000Z" ∧
    lookup2 (touch [] "bouviers" "fileA" "2026-01-01T00:00:00.000Z").2
      "bouviers" "fileA" = some "2026-01-01T00:00:00.000Z" ∧
    (touch (touch [] "bouviers" "fileA" "2026-01-01T00:00:00.000Z").2
      "bouviers" "fileA" "2026-02-01T00:00:00.000Z").1 = "2026-01-01T00:00:00.000Z" ∧
    lookup2 (touch (touch [] "bouviers" "fileA" "2026-01-01T00:00:00.000Z").2
      "bouviers" "fileA" "2026-02-01T00:00:00.000Z").2 "bouviers" "fileA"
      = some "2026-01-01T00:00:00.000Z" :=
  c1_touch_write_once [] "bouviers" "fileA" "2026-01-01T00:00:00.000Z"
    "2026-02-01T00:00:00.000Z" (by decide) (by decide)

/-! ### Claim C2 -/

/-- Claim C2: for `firstSeenAt ≤ now`, `classify` returns the floor of the day
difference (characterized by the two flanking inequalities), the age is
non-negative, the bucket is ARCHIVED exactly when `ageInDays > thresholdDays`
(strict), an asset exactly at the threshold is CURRENT, and one at
`thresholdDays + 1` is ARCHIVED. -/
theorem c2_classify_floor_boundary (firstMs nowMs thresholdDays : Int)
    (h : firstMs ≤ nowMs) :
    (classify firstMs nowMs thresholdDays).1 * msPerDay ≤ nowMs - firstMs ∧
    nowMs - firstMs < ((classify firstMs nowMs thresholdDays).1 + 1) * msPerDay ∧
    0 ≤ (classify firstMs nowMs thresholdDays).1 ∧
    ((classify firstMs nowMs thresholdDays).2 = true ↔
      thresholdDays < (classify firstMs nowMs thresholdDays).1) ∧
    ((classify firstMs nowMs thresholdDays).1 = thresholdDays →
      (classify firstMs nowMs thresholdDays).2 = false) ∧
    ((classify firstMs nowMs thresholdDays).1 = thresholdDays + 1 →
      (classify firstMs nowMs thresholdDays).2 = true) := by
  have hpos : (0 : Int) < msPerDay := by norm_num [msPerDay]
  have hfd : daysBetweenMs firstMs nowMs = (nowMs - firstMs) / msPerDay := by
    unfold daysBetweenMs
    exact Int.fdiv_eq_ediv _ (le_of_lt hpos)
  have hc1 : (classify firstMs nowMs thresholdDays).1 = (nowMs - firstMs) / msPerDay := by
    simp [classify, hfd]
  have hc2 : (classify firstMs nowMs thresholdDays).2
      = decide (thresholdDays < (nowMs - firstMs) / msPerDay) := by
    simp [classify, hfd]
  refine ⟨?_, ?_, ?_, ?_, ?_, ?_⟩
  · rw [hc1]
    exact Int.ediv_mul_le _ (ne_of_gt hpos)
  · rw [hc1]
    exact Int.lt_ediv_add_one_mul_self _ hpos
  · rw [hc1]
    exact Int.ediv_nonneg (by omega) (le_of_lt hpos)
  · rw [hc1, hc2]
    simp
  · intro hth
    rw [hc1] at hth
    rw [hc2, hth]
    simp
  · intro hth
    rw [hc1] at hth
    rw [hc2, hth]
    simp

/-- Witness for C2: at age 91 days over threshold 90 the theorem yields the
ARCHIVED bucket (91 = 90 + 1, the boundary case of the claim). -/
theorem c2_classify_floor_boundary_witness : (classify 0 7862400000 90).2 = true :=
  (c2_classify_floor_boundary 0 7862400000 90 (by norm_num)).2.2.2.2.2 (by decide)

/-! ### Claim C6 -/

/-- Claim C6: loading the manifest from an absent file, an unreadable file, or
a file whose text `JSON.parse` rejects yields the empty store (no first-seen
entries); `readManifest` is total, so loading never raises. -/
theorem c6_read_manifest_fallback (parseManifest : String → Option ManifestStore)
    (o : FileReadOutcome)
    (h : o = .absent ∨ (∃ m, o = .readError m) ∨
         (∃ s, o = .content s ∧ parseManifest s = none)) :
    readManifest parseManifest o = emptyManifest ∧
    (readManifest parseManifest o).firstSeen = [] := by
  rcases h with h | ⟨m, h⟩ | ⟨s, h, hp⟩ <;> subst h <;>
    simp [readManifest, emptyManifest, *]

/-- Witness for C6 at a concrete corrupt file content and the parse that
rejects it. -/
theorem c6_read_manifest_fallback_witness :
    readManifest (fun _ => none) (.content "not json at all") = emptyManifest ∧
    (readManifest (fun _ => none) (.content "not json at all")).firstSeen = [] :=
  c6_read_manifest_fallback (fun _ => none) (.content "not json at all")
    (Or.inr (Or.inr ⟨"not json at all", rfl, rfl⟩))

/-! ### String lemmas for the namer -/

theorem strData_append (a b : String) : (a ++ b).data = a.data ++ b.data := by
  cases a
  cases b
  rfl

theorem strEq_of_data (a b : String) (h : a.data = b.data) : a = b := by
  cases a
  cases b
  rw [show String.mk _ = String.mk _ from congrArg String.mk h]

theorem sha1hex_data_length (s : String) : (sha1hex s).data.length = 40 := by
  simp [sha1hex, wordHex]

theorem strTake_sha1_length (s : String) :
    (strTake (sha1hex s) 10).data.length = 10 := by
  have h : (strTake (sha1hex s) 10).data = (sha1hex s).data.take 10 := rfl
  rw [h, List.length_take, sha1hex_data_length]
  norm_num

/-! ### Claim C3 -/

/-- Claim C3 counterexample: the namer is not deterministic across runs.  For
the display name `"!!!.jpg"` the sanitized base is empty, so `safeFilename`
falls back to a template interpolating `Date.now()`; two calls with identical
display name and asset id but different clock values give different
filenames, so the same asset id does not always map to the same filename
across runs. -/
theorem c3_counterexample :
    stableNameOf 0 (some "!!!.jpg") "x" ≠ stableNameOf 1 (some "!!!.jpg") "x" := by
  decide

/-- Claim C3 amended: the namer is deterministic (independent of the clock)
for every display name whose sanitized base is non-empty, and two assets with
the same display name and different ids receive different filenames whenever
the ten-character sha1 prefixes of the ids differ (truncating the hash to ten
hex characters cannot separate ids with equal prefixes, and names sanitizing
to the empty base fall back to a clock-dependent filename). -/
theorem c3_namer_deterministic_collision_resistant (t1 t2 : Nat) (d : Option String)
    (id id1 id2 : String)
    (hbase : sanitizedBase (parseNameOf (jsOr d "photo")) ≠ "")
    (hhash : strTake (sha1hex id1) 10 ≠ strTake (sha1hex id2) 10) :
    stableNameOf t1 d id = stableNameOf t2 d id ∧
    stableNameOf t1 d id1 ≠ stableNameOf t1 d id2 := by
  constructor
  · simp [stableNameOf, safeFilename, hbase]
  · intro heq
    apply hhash
    unfold stableNameOf at heq
    have hd := congrArg String.data heq
    simp only [strData_append] at hd
    simp only [List.append_assoc] at hd
    have h3 := List.append_cancel_left (List.append_cancel_left hd)
    have h4 := (List.append_inj h3
      (by rw [strTake_sha1_length, strTake_sha1_length])).1
    exact strEq_of_data _ _ h4

/-- Witness for the amended C3 at a concrete display name and concrete ids
whose hash prefixes differ. -/
theorem c3_namer_witness :
    stableNameOf 3 (some "Buddy.jpg") "idX" = stableNameOf 5 (some "Buddy.jpg") "idX" ∧
    stableNameOf 3 (some "Buddy.jpg") "id1" ≠ stableNameOf 3 (some "Buddy.jpg") "id2" :=
  c3_namer_deterministic_collision_resistant 3 5 (some "Buddy.jpg") "idX" "id1" "id2"
    (by decide) (by decide)

/-! ### Claim C4 -/

/-- Claim C4: the fetcher is skip-if-exists.  Simple variant (the `syncBreed`
lines): when the destination exists no content fetch happens and the store is
unchanged; when it is absent the content is downloaded and written.  Strict
variant (`downloadDriveImageToRepo`): when the computed destination holds
non-empty bytes no content fetch happens and the store is unchanged; when it
is absent the content is downloaded and written there. -/
theorem c4_skip_if_exists
    (download : String → Except String (List Nat)) (fileId destPath : String)
    (fsP : FS) (hP : (fsP destPath).isSome = true)
    (fsA : FS) (hA : fsA destPath = none)
    (getMeta : String → DriveMeta) (fid2 destDir : String)
    (fsS : FS) (bs : List Nat) (hne : bs ≠ [])
    (hS : fsS (destDir ++ "/" ++ driveOutName (getMeta fid2) fid2) = some bs)
    (fsN : FS)
    (hN : fsN (destDir ++ "/" ++ driveOutName (getMeta fid2) fid2) = none) :
    ensureMaterialized download fsP fileId destPath = .ok (fsP, false) ∧
    ensureMaterialized download fsA fileId destPath
      = (download fileId).map (fun b => (updateFS fsA destPath b, true)) ∧
    downloadDriveImageToRepo getMeta download fsS fid2 destDir
      = .ok ⟨fsS, destDir ++ "/" ++ driveOutName (getMeta fid2) fid2,
             driveOutName (getMeta fid2) fid2, driveExtOf (getMeta fid2) fid2, false⟩ ∧
    downloadDriveImageToRepo getMeta download fsN fid2 destDir
      = (download fid2).map (fun b =>
          ⟨updateFS fsN (destDir ++ "/" ++ driveOutName (getMeta fid2) fid2) b,
           destDir ++ "/" ++ driveOutName (getMeta fid2) fid2,
           driveOutName (getMeta fid2) fid2, driveExtOf (getMeta fid2) fid2, true⟩) := by
  refine ⟨?_, ?_, ?_, ?_⟩
  · simp [ensureMaterialized, hP]
  · simp [ensureMaterialized, hA]
  · have hlen : 0 < bs.length := List.length_pos.mpr hne
    simp [downloadDriveImageToRepo, hS, hlen]
  · simp [downloadDriveImageToRepo, hN]

/-- Witness for C4 at concrete stores, metadata and download stubs. -/
theorem c4_skip_if_exists_witness :
    ensureMaterialized dl4 fsP4 "f1" "images/puppies/bouviers/current/p.jpg"
      = .ok (fsP4, false) ∧
    ensureMaterialized dl4 emptyFS "f1" "images/puppies/bouviers/current/p.jpg"
      = (dl4 "f1").map
          (fun b => (updateFS emptyFS "images/puppies/bouviers/current/p.jpg" b, true)) ∧
    downloadDriveImageToRepo meta4 dl4 fsS4 "drv1" "assets/available-photos"
      = .ok ⟨fsS4, "assets/available-photos" ++ "/" ++ driveOutName (meta4 "drv1") "drv1",
             driveOutName (meta4 "drv1") "drv1", driveExtOf (meta4 "drv1") "drv1", false⟩ ∧
    downloadDriveImageToRepo meta4 dl4 emptyFS "drv1" "assets/available-photos"
      = (dl4 "drv1").map (fun b =>
          ⟨updateFS emptyFS
             ("assets/available-photos" ++ "/" ++ driveOutName (meta4 "drv1") "drv1") b,
           "assets/available-photos" ++ "/" ++ driveOutName (meta4 "drv1") "drv1",
           driveOutName (meta4 "drv1") "drv1", driveExtOf (meta4 "drv1") "drv1", true⟩) :=
  c4_skip_if_exists dl4 "f1" "images/puppies/bouviers/current/p.jpg"
    fsP4 (by decide) emptyFS (by decide) meta4 "drv1" "assets/available-photos"
    fsS4 [5] (by decide) (by decide) emptyFS (by decide)

/-! ### Lemmas about the lister -/

theorem mem_insertByKeyDesc (key : DriveFile → Int) (f g : DriveFile)
    (l : List DriveFile) :
    g ∈ insertByKeyDesc key f l ↔ g = f ∨ g ∈ l := by
  induction l with
  | nil => simp [insertByKeyDesc]
  | cons h t ih =>
    by_cases hk : key h ≤ key f
    · simp [insertByKeyDesc, hk]
    · simp [insertByKeyDesc, hk, ih]
      tauto

theorem mem_sortByKeyDesc (key : DriveFile → Int) (l : List DriveFile)
    (g : DriveFile) : g ∈ sortByKeyDesc key l ↔ g ∈ l := by
  induction l with
  | nil => simp [sortByKeyDesc]
  | cons h t ih =>
    rw [show sortByKeyDesc key (h :: t) = insertByKeyDesc key h (sortByKeyDesc key t)
      from rfl, mem_insertByKeyDesc]
    simp [ih]

/-! ### Claim C8 -/

/-- Claim C8 counterexample: a remote file whose MIME type is absent but whose
name matches an image extension is not included in the returned sequence: the
guard `if (!f.mimeType) continue;` runs before the extension fallback, so the
fallback never applies to absent MIME types. -/
theorem c8_counterexample :
    keepFile ⟨"f1", some "x.jpg", none, none, none⟩ = false ∧
    hasImageExt "x.jpg" = true ∧
    listFilesInFolder (fun _ => 0) [[⟨"f1", some "x.jpg", none, none, none⟩]] = [] := by
  decide

/-- Claim C8 amended: a listed file is included exactly when it has a present
and non-empty MIME type and either the MIME type starts with `image/` or its
name matches the image-extension pattern; in particular the
filename-extension fallback applies only to files with a generic (non-image)
MIME type, never to files with an absent MIME type, and non-image files are
silently excluded. -/
theorem c8_filter_requires_mime (getTime : String → Int)
    (pages : List (List DriveFile)) (f : DriveFile) :
    (f ∈ listFilesInFolder getTime pages ↔ f ∈ pages.flatten ∧ keepFile f = true) ∧
    (keepFile f = true ↔ (f.mimeType ≠ none ∧ f.mimeType ≠ some "" ∧
      (strStartsWith (f.mimeType.getD "") "image/" = true ∨
        hasImageExt (jsOr f.name "") = true))) := by
  constructor
  · rw [listFilesInFolder, mem_sortByKeyDesc]
    simp [List.mem_filter]
    tauto
  · cases hm : f.mimeType with
    | none => simp [keepFile, jsFalsyOpt, hm]
    | some s =>
      by_cases hs : s = ""
      · subst hs
        simp [keepFile, jsFalsyOpt, hm]
      · simp [keepFile, jsFalsyOpt, hm, hs]

/-- Witness for the amended C8: a file with a generic MIME type and an image
extension is included through the fallback. -/
theorem c8_filter_requires_mime_witness :
    (⟨"f2", some "y.jpg", some "application/octet-stream", none, none⟩ : DriveFile)
      ∈ listFilesInFolder (fun _ => 0)
        [[⟨"f2", some "y.jpg", some "application/octet-stream", none, none⟩]] :=
  (c8_filter_requires_mime (fun _ => 0)
    [[⟨"f2", some "y.jpg", some "application/octet-stream", none, none⟩]]
    ⟨"f2", some "y.jpg", some "application/octet-stream", none, none⟩).1.mpr
    ⟨by decide, by decide⟩

/-! ### Lemmas about the orchestrator loop -/

theorem processFiles_count (env : Env) (bk rn : String) :
    ∀ (files : List DriveFile) (bm : BreedMap) (fsys : FS) (cur : List CurrentItem)
      (ac : Nat) (bm' : BreedMap) (fsys' : FS) (cur' : List CurrentItem) (ac' : Nat),
      processFiles env bk rn files bm fsys cur ac = (bm', fsys', .ok (cur', ac')) →
      cur'.length + ac' = cur.length + ac + files.length := by
  intro files
  induction files with
  | nil =>
    intro bm fsys cur ac bm' fsys' cur' ac' h
    simp only [processFiles, Prod.mk.injEq, Except.ok.injEq] at h
    obtain ⟨h1, h2, h3, h4⟩ := h
    subst h3
    subst h4
    simp
  | cons f rest ih =>
    intro bm fsys cur ac bm' fsys' cur' ac' h
    simp only [processFiles] at h
    cases hm : ensureMaterialized env.download fsys f.id
        (destPathOf env.datNowMs bk (ageArchOf env bm f rn).2 f) with
    | error e =>
      rw [hm] at h
      simp at h
    | ok p =>
      obtain ⟨fsys1, b⟩ := p
      rw [hm] at h
      simp only [] at h
      by_cases ha : (ageArchOf env bm f rn).2 = true
      · rw [if_pos ha] at h
        have hc := ih _ _ _ _ _ _ _ _ h
        simp only [List.length_cons]
        omega
      · rw [if_neg ha] at h
        have hc := ih _ _ _ _ _ _ _ _ h
        simp only [List.length_append, List.length_cons, List.length_nil] at hc ⊢
        omega

theorem processFiles_spec (env : Env) (bk rn : String) (hrn : rn ≠ "") :
    ∀ (files : List DriveFile) (bm : BreedMap) (fsys : FS) (cur : List CurrentItem)
      (ac : Nat) (bm' : BreedMap) (fsys' : FS) (cur' : List CurrentItem) (ac' : Nat),
      (∀ i, lookupA bm i ≠ some "") →
      processFiles env bk rn files bm fsys cur ac = (bm', fsys', .ok (cur', ac')) →
      (∀ i v, lookupA bm i = some v → lookupA bm' i = some v) ∧
      (∀ i, lookupA bm' i ≠ some "") ∧
      cur' = cur ++ files.filterMap (itemOfFinal env bk rn bm') := by
  intro files
  induction files with
  | nil =>
    intro bm fsys cur ac bm' fsys' cur' ac' hbm h
    simp only [processFiles, Prod.mk.injEq, Except.ok.injEq] at h
    obtain ⟨h1, h2, h3, h4⟩ := h
    subst h1
    subst h3
    exact ⟨fun i v hv => hv, hbm, by simp⟩
  | cons f rest ih =>
    intro bm fsys cur ac bm' fsys' cur' ac' hbm h
    simp only [processFiles] at h
    cases hm : ensureMaterialized env.download fsys f.id
        (destPathOf env.datNowMs bk (ageArchOf env bm f rn).2 f) with
    | error e =>
      rw [hm] at h
      simp at h
    | ok p =>
      obtain ⟨fsys1, b⟩ := p
      rw [hm] at h
      simp only [] at h
      have hbm1 : ∀ i, lookupA (touchBM bm f.id rn).2 i ≠ some "" :=
        touchBM_noempty bm f.id rn hrn hbm
      have hmono1 : ∀ i v, lookupA bm i = some v →
          lookupA (touchBM bm f.id rn).2 i = some v :=
        fun i v hv => touchBM_mono bm f.id rn i v hbm hv
      have hself : lookupA (touchBM bm f.id rn).2 f.id
          = some (firstSeenOf bm f rn) := touchBM_lookup_self bm f.id rn
      by_cases ha : (ageArchOf env bm f rn).2 = true
      · rw [if_pos ha] at h
        obtain ⟨hmono', hne', hcur'⟩ := ih _ _ _ _ _ _ _ _ hbm1 h
        have hfin : lookupA bm' f.id = some (firstSeenOf bm f rn) :=
          hmono' _ _ hself
        have ha2 : (classify (env.getTime (firstSeenOf bm f rn)) (env.getTime rn)
            DAYS_TO_KEEP_CURRENT).2 = true := ha
        refine ⟨fun i v hv => hmono' i v (hmono1 i v hv), hne', ?_⟩
        have hnone : itemOfFinal env bk rn bm' f = none := by
          simp [itemOfFinal, hfin, ha2]
        rw [hcur', List.filterMap_cons, hnone]
      · have ha' : (ageArchOf env bm f rn).2 = false := by
          cases hb : (ageArchOf env bm f rn).2
          · rfl
          · exact absurd hb ha
        rw [if_neg ha] at h
        obtain ⟨hmono', hne', hcur'⟩ := ih _ _ _ _ _ _ _ _ hbm1 h
        have hfin : lookupA bm' f.id = some (firstSeenOf bm f rn) :=
          hmono' _ _ hself
        have ha2 : (classify (env.getTime (firstSeenOf bm f rn)) (env.getTime rn)
            DAYS_TO_KEEP_CURRENT).2 = false := ha'
        refine ⟨fun i v hv => hmono' i v (hmono1 i v hv), hne', ?_⟩
        have hsome : itemOfFinal env bk rn bm' f = some (mkItem env bk bm f rn) := by
          simp [itemOfFinal, mkItem, ageArchOf, hfin, ha2]
        rw [hcur', List.filterMap_cons, hsome]
        simp

theorem syncBreed_eq_error (env : Env) (bk : String) (pages : List (List DriveFile))
    (fs : FirstSeen) (rn : String) (fsys : FS) (bm' : BreedMap) (fsys' : FS)
    (e : String)
    (hp : processFiles env bk rn (listFilesInFolder env.getTime pages)
      ((lookupA fs bk).getD []) fsys [] 0 = (bm', fsys', .error e)) :
    syncBreed env bk pages fs rn fsys = ⟨fsys', setA fs bk bm', .error e⟩ := by
  unfold syncBreed
  rw [hp]

theorem syncBreed_eq_ok (env : Env) (bk : String) (pages : List (List DriveFile))
    (fs : FirstSeen) (rn : String) (fsys : FS) (bm' : BreedMap) (fsys' : FS)
    (cur : List CurrentItem) (ac : Nat)
    (hp : processFiles env bk rn (listFilesInFolder env.getTime pages)
      ((lookupA fs bk).getD []) fsys [] 0 = (bm', fsys', .ok (cur, ac))) :
    syncBreed env bk pages fs rn fsys
      = ⟨fsys', setA fs bk bm', .ok ⟨bk, rn, DAYS_TO_KEEP_CURRENT, cur, ac⟩⟩ := by
  unfold syncBreed
  rw [hp]

theorem syncBreed_spec (env : Env) (bk : String) (pages : List (List DriveFile))
    (fs : FirstSeen) (rn : String) (fsys : FS) (hrn : rn ≠ "")
    (hfs : ∀ b i, lookup2 fs b i ≠ some "") (s : BreedSummary)
    (hok : (syncBreed env bk pages fs rn fsys).result = .ok s) :
    s.current = (listFilesInFolder env.getTime pages).filterMap
      (itemOfFinal env bk rn
        ((lookupA (syncBreed env bk pages fs rn fsys).firstSeen bk).getD [])) ∧
    (∀ b i v, lookup2 fs b i = some v →
      lookup2 (syncBreed env bk pages fs rn fsys).firstSeen b i = some v) ∧
    (∀ b i, lookup2 (syncBreed env bk pages fs rn fsys).firstSeen b i ≠ some "") := by
  have hbm0 : ∀ i, lookupA ((lookupA fs bk).getD []) i ≠ some "" := fun i => hfs bk i
  cases hp : processFiles env bk rn (listFilesInFolder env.getTime pages)
      ((lookupA fs bk).getD []) fsys [] 0 with
  | mk bm' q =>
    obtain ⟨fsys', r⟩ := q
    cases r with
    | error e =>
      have he := syncBreed_eq_error env bk pages fs rn fsys bm' fsys' e hp
      rw [he] at hok
      simp at hok
    | ok p =>
      obtain ⟨cur, ac⟩ := p
      have he := syncBreed_eq_ok env bk pages fs rn fsys bm' fsys' cur ac hp
      rw [he] at hok
      simp only [Except.ok.injEq] at hok
      subst hok
      obtain ⟨hmono, hne, hcur⟩ :=
        processFiles_spec env bk rn hrn _ _ _ _ _ _ _ _ _ hbm0 hp
      refine ⟨?_, ?_, ?_⟩
      · rw [he]
        show cur = (listFilesInFolder env.getTime pages).filterMap
          (itemOfFinal env bk rn ((lookupA (setA fs bk bm') bk).getD []))
        rw [lookupA_setA_self]
        simpa using hcur
      · intro b i v hv
        rw [he]
        show lookup2 (setA fs bk bm') b i = some v
        by_cases hb : b = bk
        · subst hb
          unfold lookup2
          rw [lookupA_setA_self]
          exact hmono i v hv
        · unfold lookup2
          rw [lookupA_setA_ne fs bk b bm' hb]
          exact hv
      · intro b i
        rw [he]
        show lookup2 (setA fs bk bm') b i ≠ some ""
        by_cases hb : b = bk
        · subst hb
          unfold lookup2
          rw [lookupA_setA_self]
          exact hne i
        · unfold lookup2
          rw [lookupA_setA_ne fs bk b bm' hb]
          exact hfs b i

/-! ### Claim C9 -/

/-- Claim C9: whenever `syncBreed` emits a summary, every listed image asset
lands in exactly one of the two buckets:
`current.length + archiveCount = number of listed image assets`. -/
theorem c9_partition_exact (env : Env) (bk : String) (pages : List (List DriveFile))
    (fs : FirstSeen) (rn : String) (fsys : FS) (s : BreedSummary)
    (hok : (syncBreed env bk pages fs rn fsys).result = .ok s) :
    s.current.length + s.archiveCount = (listFilesInFolder env.getTime pages).length := by
  cases hp : processFiles env bk rn (listFilesInFolder env.getTime pages)
      ((lookupA fs bk).getD []) fsys [] 0 with
  | mk bm' q =>
    obtain ⟨fsys', r⟩ := q
    cases r with
    | error e =>
      have he := syncBreed_eq_error env bk pages fs rn fsys bm' fsys' e hp
      rw [he] at hok
      simp at hok
    | ok p =>
      obtain ⟨cur, ac⟩ := p
      have he := syncBreed_eq_ok env bk pages fs rn fsys bm' fsys' cur ac hp
      rw [he] at hok
      simp only [Except.ok.injEq] at hok
      subst hok
      have hc := processFiles_count env bk rn _ _ _ _ _ _ _ _ _ hp
      simpa using hc

/-- Witness for C9 at the mixed run: one asset current, two archived. -/
theorem c9_partition_exact_witness :
    c9sum.current.length + c9sum.archiveCount
      = (listFilesInFolder envFix.getTime [[fcX, faX], [fbX]]).length :=
  c9_partition_exact envFix "bouviers" [[fcX, faX], [fbX]]
    [("bouviers", [("a", "2026-01-01T00:00:00.000Z"),
                   ("b", "2026-01-05T00:00:00.000Z")])]
    "2026-04-10T00:00:00.000Z" emptyFS c9sum (by decide)

/-! ### Claim C7 -/

/-- Claim C7 counterexample: the ordering of `currentItems` is not sorted by
the documented key first-seen time then asset id: the concrete run emits the
first-seen sequence Jan 5, Jan 1, Jan 5, which is neither nondecreasing nor
nonincreasing in first-seen time, so no tie-break on asset id can describe it. -/
theorem c7_counterexample :
    c7run.result = .ok c7sum ∧
    c7sum.current.map (fun it => it.firstSeen)
      = ["2026-01-05T00:00:00.000Z", "2026-01-01T00:00:00.000Z",
         "2026-01-05T00:00:00.000Z"] ∧
    sortedByFirstSeen gtFix c7sum.current = false ∧
    sortedByFirstSeenRev gtFix c7sum.current = false := by
  decide

/-- Claim C7 amended: within the CURRENT bucket the summary order is the
listing order of the lister — the stable sort by Drive `modifiedTime`
(`createdTime` fallback) descending — not a sort by first-seen time and asset
id: `currentItems` is exactly the sorted listing filtered to its
current-classified assets, in that order. -/
theorem c7_current_follows_listing_order (env : Env) (bk : String)
    (pages : List (List DriveFile)) (fs : FirstSeen) (rn : String) (fsys : FS)
    (hrn : rn ≠ "") (hfs : ∀ b i, lookup2 fs b i ≠ some "") (s : BreedSummary)
    (hok : (syncBreed env bk pages fs rn fsys).result = .ok s) :
    s.current = (listFilesInFolder env.getTime pages).filterMap
      (itemOfFinal env bk rn
        ((lookupA (syncBreed env bk pages fs rn fsys).firstSeen bk).getD [])) :=
  (syncBreed_spec env bk pages fs rn fsys hrn hfs s hok).1

/-- Witness for the amended C7 at the concrete three-file run. -/
theorem c7_current_follows_listing_order_witness :
    c7sum.current = (listFilesInFolder envFix.getTime [[fcX, faX], [fbX]]).filterMap
      (itemOfFinal envFix "bouviers" "2026-01-10T00:00:00.000Z"
        ((lookupA c7run.firstSeen "bouviers").getD [])) :=
  c7_current_follows_listing_order envFix "bouviers" [[fcX, faX], [fbX]] fsFix
    "2026-01-10T00:00:00.000Z" emptyFS (by decide)
    (by
      intro b i
      unfold lookup2
      by_cases hb : ("bouviers" : String) = b
      · simp [fsFix, lookupA, hb]
        split_ifs <;> simp
      · simp [fsFix, lookupA, hb])
    c7sum (by decide)

/-! ### Claim C5 -/

/-- Claim C5 counterexample: a download failure for a single asset aborts the
whole collection: the concrete run returns the thrown error and no summary is
produced for the collection. -/
theorem c5_counterexample :
    (syncBreed envC5 "bouviers" [[faX]] [] "2026-01-10T00:00:00.000Z" emptyFS).result
      = .error "network down" := by
  decide

/-- Claim C5 amended: `downloadFile` is awaited without any `try`/`catch` in
`syncBreed`, so a download failure for an asset that is not already
materialized propagates: the collection sync aborts with that error,
remaining assets are not processed, and the collection summary is not
written. -/
theorem c5_download_error_aborts_collection (env : Env) (bk rn : String)
    (pages : List (List DriveFile)) (fs : FirstSeen) (e : String)
    (hne : listFilesInFolder env.getTime pages ≠ [])
    (hdl : ∀ i, env.download i = .error e) :
    (syncBreed env bk pages fs rn emptyFS).result = .error e := by
  cases hl : listFilesInFolder env.getTime pages with
  | nil => exact absurd hl hne
  | cons f rest =>
    unfold syncBreed
    rw [hl]
    simp only [processFiles]
    rw [show ensureMaterialized env.download emptyFS f.id
        (destPathOf env.datNowMs bk
          (ageArchOf env ((lookupA fs bk).getD []) f rn).2 f)
        = .error e from by
      simp [ensureMaterialized, emptyFS, hdl f.id, Except.map]]

/-- Witness for the amended C5: the concrete failing run propagates the
thrown message. -/
theorem c5_download_error_aborts_collection_witness :
    (syncBreed envC5w "lowchen" [[fbX]] [] "2026-01-10T00:00:00.000Z" emptyFS).result
      = .error "offline" :=
  c5_download_error_aborts_collection envC5w "lowchen" "2026-01-10T00:00:00.000Z"
    [[fbX]] [] "offline" (by decide) (fun _ => rfl)

/-! ### Claim C10 -/

/-- Claim C10: the manifest only grows over a run.  When `main` persists the
manifest (both collections succeeded), every `(collectionKey, assetId)` entry
of the loaded manifest — including entries for assets that no longer appear in
any listing — is still present with its original first-seen value, so the
persisted key set is a superset of the loaded one and agrees with it on every
previously present key.  The hypotheses say that the run timestamp and the
loaded values are actual (non-empty) timestamp strings. -/
theorem c10_manifest_monotone (env : Env) (pagesB pagesL : List (List DriveFile))
    (manifest : ManifestStore) (rn : String) (fsys : FS) (ms : ManifestStore)
    (hrn : rn ≠ "") (hfs : ∀ b i, lookup2 manifest.firstSeen b i ≠ some "")
    (hper : (runMain env pagesB pagesL manifest rn fsys).2.2 = some ms) :
    ∀ b i v, lookup2 manifest.firstSeen b i = some v →
      lookup2 ms.firstSeen b i = some v := by
  unfold runMain at hper
  simp only [] at hper
  cases h1 : (syncBreed env "bouviers" pagesB manifest.firstSeen rn fsys).result with
  | error e =>
    rw [h1] at hper
    simp at hper
  | ok s1 =>
    rw [h1] at hper
    simp only [] at hper
    cases h2 : (syncBreed env "lowchen" pagesL
        (syncBreed env "bouviers" pagesB manifest.firstSeen rn fsys).firstSeen rn
        (syncBreed env "bouviers" pagesB manifest.firstSeen rn fsys).fsys).result with
    | error e =>
      rw [h2] at hper
      simp at hper
    | ok s2 =>
      rw [h2] at hper
      simp only [Option.some.injEq] at hper
      obtain ⟨-, hmono1, hne1⟩ :=
        syncBreed_spec env "bouviers" pagesB manifest.firstSeen rn fsys hrn hfs s1 h1
      obtain ⟨-, hmono2, -⟩ :=
        syncBreed_spec env "lowchen" pagesL
          (syncBreed env "bouviers" pagesB manifest.firstSeen rn fsys).firstSeen rn
          (syncBreed env "bouviers" pagesB manifest.firstSeen rn fsys).fsys
          hrn hne1 s2 h2
      intro b i v hv
      rw [← hper]
      exact hmono2 b i v (hmono1 b i v hv)

/-- Witness for C10: a concrete run with empty listings persists the loaded
entry unchanged. -/
theorem c10_manifest_monotone_witness :
    lookup2 ms10.firstSeen "bouviers" "old" = some "2026-01-01T00:00:00.000Z" :=
  c10_manifest_monotone env10 [[]] [[]] m10 "2026-04-10T00:00:00.000Z" emptyFS ms10
    (by decide)
    (by
      intro b i
      unfold lookup2
      by_cases hb : ("bouviers" : String) = b
      · simp [m10, lookupA, hb]
      · simp [m10, lookupA, hb])
    (by decide) "bouviers" "old" "2026-01-01T00:00:00.000Z" (by decide)

